import Mathlib

/- Batteries marks the arithmetic on `Rat` `[irreducible]` as a hint to the
elaborator; the kernel treats the definitions as ordinary ones.  Restoring
the default transparency lets `decide` evaluate the engine on the concrete
scenarios below. -/
attribute [local semireducible] Rat.mul Rat.inv Rat.add Rat.sub

/-!
Shallow embedding of the backtesting engine in
`src/trading_assistant/commands/backtest.py` (class `BacktestCommand`).

Conventions of the embedding:
* Python floats are modelled as rationals (`ℚ`); all the properties checked
  here are order/equality properties that hold identically for exact reals.
* A pandas row is modelled as a `Bar` record; indicator columns that may be
  absent from a row are `Option ℚ` (`none` = the column is missing, which in
  the Python code surfaces as a `KeyError` swallowed by the local
  `try/except` of each signal helper, or as the explicit `not in row` check).
* Bar timestamps are strictly ascending and unique, so a bar's position in
  the input list stands for its timestamp (`next_bar.name` in the source).
* Fallible Python code (ZeroDivisionError, KeyError, ValueError) is embedded
  in `Except String`; the enclosing `try/except` of `_run_backtest` becomes
  the total wrapper `runBacktest` that maps any error to the literal
  fallback dict built in the handler.
-/

namespace Backtest

/-- The three trade signals returned by the signal helpers
(`'buy'`, `'sell'`, `'hold'` strings in the source). -/
inductive Signal where
  | buy
  | sell
  | hold
deriving DecidableEq, Repr

/-- One row of the indicator-annotated price frame.  `Open`, `High`, `Low`,
`Close` are always present; indicator columns are optional. -/
structure Bar where
  Open : ℚ
  High : ℚ
  Low : ℚ
  Close : ℚ
  RSI : Option ℚ := none
  MACD : Option ℚ := none
  MACD_Signal : Option ℚ := none
  BB_Upper : Option ℚ := none
  BB_Lower : Option ℚ := none
deriving DecidableEq, Repr

/-- `BacktestCommand._get_macd_signal`: requires `MACD` and `MACD_Signal`
on the row (`not in row` → `'hold'`); `macd_hist = MACD - MACD_Signal`;
buy iff `macd_hist > 0 and MACD > 0`; sell iff `macd_hist < 0 and MACD < 0`. -/
def getMacdSignal (row : Bar) : Signal :=
  match row.MACD, row.MACD_Signal with
  | some macd, some sig =>
      let macd_hist := macd - sig
      if macd_hist > 0 ∧ macd > 0 then Signal.buy
      else if macd_hist < 0 ∧ macd < 0 then Signal.sell
      else Signal.hold
  | _, _ => Signal.hold

/-- `BacktestCommand._get_rsi_signal`: buy iff `RSI < 30`, sell iff
`RSI > 70`, else hold; a missing `RSI` column raises a `KeyError` that the
helper catches, returning `'hold'`. -/
def getRsiSignal (row : Bar) : Signal :=
  match row.RSI with
  | some rsi =>
      if rsi < 30 then Signal.buy
      else if rsi > 70 then Signal.sell
      else Signal.hold
  | none => Signal.hold

/-- `BacktestCommand._get_breakout_signal`: buy iff `Close > BB_Upper`,
sell iff `Close < BB_Lower`, else hold.  Python evaluates the conditions in
order, so a missing `BB_Upper` raises (→ caught → `'hold'`) before
`BB_Lower` is ever read, and `BB_Lower` is only read when
`Close ≤ BB_Upper`. -/
def getBreakoutSignal (row : Bar) : Signal :=
  match row.BB_Upper with
  | none => Signal.hold
  | some upper =>
      if row.Close > upper then Signal.buy
      else
        match row.BB_Lower with
        | none => Signal.hold
        | some lower =>
            if row.Close < lower then Signal.sell
            else Signal.hold

/-- `BacktestCommand._get_signal(row, strategy_type)`: dispatch on the
strategy-type string; any unknown string falls through to the breakout
rule. -/
def getSignal (row : Bar) (strategy_type : String) : Signal :=
  if strategy_type = "macd_momentum" then getMacdSignal row
  else if strategy_type = "rsi_reversal" then getRsiSignal row
  else getBreakoutSignal row

/-- One saved entry of `strategies.json`, flattened to the fields
`_run_backtest` actually dereferences:
`name` is the key the entry is stored under (the strategy name typed at the
CLI, e.g. `"rsi_reversal"`, which doubles as the signal type);
`portfolio_size` is `strategy_config['portfolio']['size']`;
`max_risk_per_trade` is `strategy_config['position_sizing']['max_risk_per_trade']`;
`stop_loss_value` is `strategy_config['trade']['stop_loss']['value']`;
`take_profit_values` is `strategy_config['trade']['take_profit']['values']`,
`none` when the `'values'` key is absent (e.g. a `type: fixed` take-profit),
in which case the Python dereference raises a `KeyError`. -/
structure StrategyConfig where
  name : String
  portfolio_size : ℚ
  max_risk_per_trade : ℚ
  stop_loss_value : ℚ
  take_profit_values : Option (List ℚ)
deriving DecidableEq, Repr

/-- Python `int()` applied to a rational: truncation toward zero. -/
def pyint (q : ℚ) : ℤ :=
  if q < 0 then -⌊-q⌋ else ⌊q⌋

/-- The open-position dict built in the entry branch of `_run_backtest`.
`entry_date` is the index of the entry bar (its timestamp). -/
structure Position where
  type : Signal
  entry_price : ℚ
  entry_date : ℕ
  shares : ℤ
  stop_loss : ℚ
  take_profit_levels : List ℚ
deriving DecidableEq, Repr

/-- The exit-reason strings of `_run_backtest`:
`"Stop Loss"`, `f"Take Profit {tp_level}%"`, `"Signal Reversal"`,
`"End of Period"`. -/
inductive ExitReason where
  | stopLoss
  | takeProfit (level : ℚ)
  | signalReversal
  | endOfPeriod
deriving DecidableEq, Repr

/-- One closed-trade dict appended to `trades`.  Dates are bar indices. -/
structure Trade where
  entry_date : ℕ
  exit_date : ℕ
  type : Signal
  entry : ℚ
  exit : ℚ
  shares : ℤ
  pnl : ℚ
  pnl_pct : ℚ
  exit_reason : ExitReason
deriving DecidableEq, Repr

/-- The mutable loop state of `_run_backtest`: the trade log, the optional
open position, and the equity curve (always nonempty: it is seeded with
`[initial_capital]`). -/
structure BTState where
  trades : List Trade
  position : Option Position
  equity_curve : List ℚ
deriving DecidableEq, Repr

/-- Stop-loss exit condition of `_run_backtest` (checked against the bar
`next_bar = data.iloc[i+1]`): a long exits when `next_bar['Low']` is at or
below the stop price, a short when `next_bar['High']` is at or above it. -/
def stopLossCond (position : Position) (next_bar : Bar) : Prop :=
  (position.type = Signal.buy ∧ next_bar.Low ≤ position.stop_loss) ∨
  (position.type = Signal.sell ∧ position.stop_loss ≤ next_bar.High)

instance (position : Position) (next_bar : Bar) :
    Decidable (stopLossCond position next_bar) := by
  unfold stopLossCond; infer_instance

/-- Take-profit scan of `_run_backtest`: the levels are traversed in their
stored order and the loop breaks at the first level with
`pnl_pct >= float(tp_level)`. -/
def firstTpLevel (levels : List ℚ) (pnl_pct : ℚ) : Option ℚ :=
  levels.find? fun lvl => decide (lvl ≤ pnl_pct)

/-- Signal-reversal exit condition of `_run_backtest`: the signal of the
current bar (bar `i`) opposes the open position's side. -/
def reversalCond (position : Position) (signal : Signal) : Prop :=
  (position.type = Signal.buy ∧ signal = Signal.sell) ∨
  (position.type = Signal.sell ∧ signal = Signal.buy)

instance (position : Position) (signal : Signal) :
    Decidable (reversalCond position signal) := by
  unfold reversalCond; infer_instance

/-- The sequential `should_exit` / `exit_reason` assignments of
`_run_backtest`: the stop-loss check writes first, the take-profit scan
overwrites it, and the signal-reversal check overwrites both — so the
*last* true condition determines the recorded reason.  `none` means no
condition fired (`should_exit` stayed `False`). -/
def exitDecision (position : Position) (next_bar : Bar) (pnl_pct : ℚ)
    (signal : Signal) : Option ExitReason :=
  let r₁ : Option ExitReason :=
    if stopLossCond position next_bar then some ExitReason.stopLoss else none
  let r₂ : Option ExitReason :=
    match firstTpLevel position.take_profit_levels pnl_pct with
    | some lvl => some (ExitReason.takeProfit lvl)
    | none => r₁
  if reversalCond position signal then some ExitReason.signalReversal else r₂

/-- The entry/exit logic of one iteration of the `for i in range(len(data)-1)`
loop of `_run_backtest`, processing `current_bar = data.iloc[i]` and
`next_bar = data.iloc[i+1]`.  Note the source passes the *fixed* string
`'macd_momentum'` to `_get_signal`, not the configured strategy name.
Raising dereferences/divisions become `throw`. -/
def btStepBody (strategy_config : StrategyConfig) (initial_capital : ℚ) (i : ℕ)
    (current_bar next_bar : Bar) (st : BTState) : Except String BTState := do
  let signal := getSignal current_bar "macd_momentum"
  match st.position with
    | none =>
        if signal = Signal.buy ∨ signal = Signal.sell then do
          let risk_amount :=
            initial_capital * (strategy_config.max_risk_per_trade / 100)
          let stop_loss_pct := strategy_config.stop_loss_value / 100
          -- `position_size = risk_amount / stop_loss_pct`
          if stop_loss_pct = 0 then
            throw "ZeroDivisionError: position_size"
          let position_size := risk_amount / stop_loss_pct
          -- `shares = int(position_size / next_bar['Open'])`
          if next_bar.Open = 0 then
            throw "ZeroDivisionError: shares"
          let shares := pyint (position_size / next_bar.Open)
          match strategy_config.take_profit_values with
          | none => throw "KeyError: values"
          | some tp_values =>
              pure { st with
                position := some {
                  type := signal
                  entry_price := next_bar.Open
                  entry_date := i + 1
                  shares := shares
                  stop_loss :=
                    if signal = Signal.buy then next_bar.Open * (1 - stop_loss_pct)
                    else next_bar.Open * (1 + stop_loss_pct)
                  take_profit_levels := tp_values } }
        else
          pure st
    | some position => do
        let pd := next_bar.Open - position.entry_price
        let price_diff := if position.type = Signal.sell then -pd else pd
        let pnl := price_diff * (position.shares : ℚ)
        let pnl_pct := price_diff / position.entry_price * 100
        match exitDecision position next_bar pnl_pct signal with
        | some reason =>
            pure { st with
              trades := st.trades ++ [{
                entry_date := position.entry_date
                exit_date := i + 1
                type := position.type
                entry := position.entry_price
                exit := next_bar.Open
                shares := position.shares
                pnl := pnl
                pnl_pct := pnl_pct
                exit_reason := reason }]
              position := none
              equity_curve :=
                st.equity_curve ++ [st.equity_curve.getLastD 0 + pnl] }
        | none => pure st

/-- The trailing bookkeeping of each loop iteration:
`if len(equity_curve) <= i: equity_curve.append(equity_curve[-1])`. -/
def trailAppend (i : ℕ) (st : BTState) : BTState :=
  { st with
    equity_curve :=
      if st.equity_curve.length ≤ i then
        st.equity_curve ++ [st.equity_curve.getLastD 0]
      else st.equity_curve }

/-- One full iteration of the bar loop of `_run_backtest`: the entry/exit
logic followed by the trailing equity-curve append check. -/
def btStep (strategy_config : StrategyConfig) (initial_capital : ℚ) (i : ℕ)
    (current_bar next_bar : Bar) (st : BTState) : Except String BTState := do
  let st₁ ← btStepBody strategy_config initial_capital i current_bar next_bar st
  pure (trailAppend i st₁)

/-- The bar loop of `_run_backtest`: iterate `btStep` over each adjacent
pair of bars, carrying the loop index `i` (so the loop body runs for
`i = 0 .. len(data)-2` and never touches the case of 0 or 1 bars). -/
def btLoop (strategy_config : StrategyConfig) (initial_capital : ℚ) :
    ℕ → List Bar → BTState → Except String BTState
  | _, [], st => pure st
  | _, [_], st => pure st
  | i, current_bar :: next_bar :: rest, st => do
      let st₁ ← btStep strategy_config initial_capital i current_bar next_bar st
      btLoop strategy_config initial_capital (i + 1) (next_bar :: rest) st₁

/-- The forced closure after the loop: any open position is closed at
`data.iloc[-1]['Close']` with reason `'End of Period'`.  (A position can
only exist when `data` has at least two bars, so the `getLast?` fallback is
unreachable on states produced by the engine.) -/
def forceClose (data : List Bar) (st : BTState) : BTState :=
  match st.position, data.getLast? with
  | some position, some final_bar =>
      let pd := final_bar.Close - position.entry_price
      let price_diff := if position.type = Signal.sell then -pd else pd
      let pnl := price_diff * (position.shares : ℚ)
      let pnl_pct := price_diff / position.entry_price * 100
      { trades := st.trades ++ [{
          entry_date := position.entry_date
          exit_date := data.length - 1
          type := position.type
          entry := position.entry_price
          exit := final_bar.Close
          shares := position.shares
          pnl := pnl
          pnl_pct := pnl_pct
          exit_reason := ExitReason.endOfPeriod }]
        position := none
        equity_curve := st.equity_curve ++ [st.equity_curve.getLastD 0 + pnl] }
  | _, _ => st

/-- Python `max(xs)`: raises `ValueError` on an empty sequence. -/
def pymax : List ℚ → Except String ℚ
  | [] => throw "ValueError: max of empty sequence"
  | x :: xs => pure (xs.foldl max x)

/-- Python `min(xs)`: raises `ValueError` on an empty sequence. -/
def pymin : List ℚ → Except String ℚ
  | [] => throw "ValueError: min of empty sequence"
  | x :: xs => pure (xs.foldl min x)

/-- Running maximum seeded with `m` (tail of `pandas.Series.cummax`). -/
def cummaxFrom (m : ℚ) : List ℚ → List ℚ
  | [] => []
  | x :: xs => max m x :: cummaxFrom (max m x) xs

/-- `pandas.Series.cummax` on the equity curve. -/
def cummax : List ℚ → List ℚ
  | [] => []
  | x :: xs => cummaxFrom x (x :: xs)

/-- The drawdown series
`(equity_series - equity_series.cummax()) / equity_series.cummax() * 100`.
(Division by an exactly-zero running peak yields `inf`/`NaN` in pandas; it
is `0` here.  The engine never produces a zero running peak from a positive
initial capital, and no claim touches that degenerate case.) -/
def drawdowns (equity_curve : List ℚ) : List ℚ :=
  (equity_curve.zip (cummax equity_curve)).map
    fun p => (p.1 - p.2) / p.2 * 100

/-- `pandas.Series.pct_change().dropna()`: the ratio change between each
adjacent pair.  (A zero predecessor yields `inf` in pandas, `0` here; not
reachable in any claim.) -/
def pctChange : List ℚ → List ℚ
  | x :: y :: rest => (y - x) / x :: pctChange (y :: rest)
  | _ => []

/-- `np.mean` over a nonempty list of rationals. -/
def mean (xs : List ℚ) : ℚ := xs.sum / (xs.length : ℚ)

/-- `pandas.Series.std` squared, i.e. the sample variance (`ddof = 1`).
(For a single observation pandas yields `NaN`; here the `n - 1 = 0`
denominator yields `0`, which sends `_calculate_sharpe_ratio` into its
zero branch — a divergence only on two-point equity curves, which no claim
touches.) -/
def sampleVar (xs : List ℚ) : ℚ :=
  (xs.map fun x => (x - mean xs) ^ 2).sum / ((xs.length : ℚ) - 1)

/-- Exact representation of the irrational value `coeff * √radicand`
(with `radicand ≥ 0` in every value the code produces); `⟨0, 0⟩` is `0.0`. -/
structure SignedSqrt where
  coeff : ℚ
  radicand : ℚ
deriving DecidableEq, Repr

/-- `BacktestCommand._calculate_sharpe_ratio`: `0.0` for a curve shorter
than 2 points or a zero standard deviation; otherwise
`sqrt(252) * mean(excess) / std(excess)`, which equals
`mean(excess) * √(252 / var(excess))` and is stored exactly as a
`SignedSqrt`.  The risk-free adjustment is `0.02 / 252` per bar. -/
def sharpeRatio (equity_curve : List ℚ) : SignedSqrt :=
  if equity_curve.length < 2 then ⟨0, 0⟩
  else
    let returns := pctChange equity_curve
    let excess_returns := returns.map fun r => r - (2 / 100) / 252
    let v := sampleVar excess_returns
    if v = 0 then ⟨0, 0⟩
    else ⟨mean excess_returns, 252 / v⟩

/-- The value of the `'profit_factor'` key: a finite float, or the
`float('inf')` sentinel. -/
inductive ProfitFactor where
  | finite (value : ℚ)
  | posInf
deriving DecidableEq, Repr

/-- The dict returned by `_calculate_statistics`. -/
structure Stats where
  total_trades : ℕ
  winning_trades : ℕ
  losing_trades : ℕ
  win_rate : ℚ
  avg_win : ℚ
  avg_loss : ℚ
  largest_win : ℚ
  largest_loss : ℚ
  profit_factor : ProfitFactor
  max_drawdown : ℚ
  total_return : ℚ
  sharpe_ratio : SignedSqrt
  equity_curve : List ℚ
  trades : List Trade
deriving DecidableEq, Repr

/-- `BacktestCommand._calculate_statistics(trades, equity_curve)`.
The curve is nonempty on every call the engine makes (it is seeded with
`[initial_capital]`), so `equity_curve[0]` / `equity_curve[-1]` are
embedded as `headD` / `getLastD`; the `ZeroDivisionError` that
`total_return` raises when `equity_curve[0] == 0` is an explicit `throw`. -/
def calculateStatistics (trades : List Trade) (equity_curve : List ℚ) :
    Except String Stats :=
  if trades.isEmpty then do
    if equity_curve.headD 0 = 0 then
      throw "ZeroDivisionError: total_return"
    pure {
      total_trades := 0
      winning_trades := 0
      losing_trades := 0
      win_rate := 0
      avg_win := 0
      avg_loss := 0
      largest_win := 0
      largest_loss := 0
      profit_factor := ProfitFactor.finite 0
      max_drawdown := 0
      total_return :=
        (equity_curve.getLastD 0 - equity_curve.headD 0) /
          equity_curve.headD 0 * 100
      sharpe_ratio := ⟨0, 0⟩
      equity_curve := equity_curve
      trades := [] }
  else do
    let win_trades := trades.filter fun t => decide (0 < t.pnl)
    let loss_trades := trades.filter fun t => decide (t.pnl < 0)
    let largest_win ← pymax (trades.map Trade.pnl)
    let largest_loss ← pymin (trades.map Trade.pnl)
    let min_drawdown ← pymin (drawdowns equity_curve)
    if equity_curve.headD 0 = 0 then
      throw "ZeroDivisionError: total_return"
    pure {
      total_trades := trades.length
      winning_trades := win_trades.length
      losing_trades := loss_trades.length
      win_rate := (win_trades.length : ℚ) / (trades.length : ℚ) * 100
      avg_win := if win_trades.isEmpty then 0 else mean (win_trades.map Trade.pnl)
      avg_loss := if loss_trades.isEmpty then 0 else mean (loss_trades.map Trade.pnl)
      largest_win := largest_win
      largest_loss := largest_loss
      profit_factor :=
        if loss_trades.isEmpty then ProfitFactor.posInf
        else ProfitFactor.finite
          |(win_trades.map Trade.pnl).sum / (loss_trades.map Trade.pnl).sum|
      max_drawdown := |min_drawdown|
      total_return :=
        (equity_curve.getLastD 0 - equity_curve.headD 0) /
          equity_curve.headD 0 * 100
      sharpe_ratio := sharpeRatio equity_curve
      equity_curve := equity_curve
      trades := trades }

/-- `_run_backtest` up to (and including) `_calculate_statistics`, without
the enclosing `try/except`. -/
def runBacktestCore (data : List Bar) (strategy_config : StrategyConfig) :
    Except String Stats := do
  let initial_capital := strategy_config.portfolio_size
  let st₀ : BTState :=
    { trades := [], position := none, equity_curve := [initial_capital] }
  let st₁ ← btLoop strategy_config initial_capital 0 data st₀
  let st₂ := forceClose data st₁
  calculateStatistics st₂.trades st₂.equity_curve

/-- The literal fallback dict built in the `except` handler of
`_run_backtest` — note it carries only six keys, not the full statistics
report. -/
structure CaughtResult where
  total_trades : ℕ
  winning_trades : ℕ
  losing_trades : ℕ
  win_rate : ℚ
  equity_curve : List ℚ
  trades : List Trade
deriving DecidableEq, Repr

/-- The zero-trade fallback of the handler:
`{'total_trades': 0, ..., 'equity_curve': [initial_capital], 'trades': []}`. -/
def emptyCaughtResult (initial_capital : ℚ) : CaughtResult :=
  { total_trades := 0, winning_trades := 0, losing_trades := 0,
    win_rate := 0, equity_curve := [initial_capital], trades := [] }

/-- `BacktestCommand._run_backtest`: the whole body runs under
`try/except Exception`, and any raise is converted into the fallback
dict. -/
def runBacktest (data : List Bar) (strategy_config : StrategyConfig) :
    Stats ⊕ CaughtResult :=
  match runBacktestCore data strategy_config with
  | Except.ok s => Sum.inl s
  | Except.error _ => Sum.inr (emptyCaughtResult strategy_config.portfolio_size)

/-- The equity curve of a backtest outcome, whichever branch produced it. -/
def resultEquityCurve : Stats ⊕ CaughtResult → List ℚ
  | Sum.inl s => s.equity_curve
  | Sum.inr c => c.equity_curve

/-- The trade log of a backtest outcome, whichever branch produced it. -/
def resultTrades : Stats ⊕ CaughtResult → List Trade
  | Sum.inl s => s.trades
  | Sum.inr c => c.trades

/-! ### Concrete scenario data used by the claim theorems -/

/-- A well-formed strategy entry: $10,000 portfolio, 1% risk per trade,
5% stop loss, take-profit levels `[8, 12]` (the `macd_momentum` template
shape of `build.py`). -/
def demoConfig : StrategyConfig :=
  { name := "macd_momentum", portfolio_size := 10000, max_risk_per_trade := 1,
    stop_loss_value := 5, take_profit_values := some [8, 12] }

/-- A bar with no indicator columns: every signal helper returns hold. -/
def holdBar : Bar := { Open := 100, High := 101, Low := 99, Close := 100 }

/-- A bar whose MACD columns satisfy the buy rule (`hist = 1/2 > 0`,
`MACD = 1 > 0`). -/
def macdBuyBar : Bar :=
  { Open := 100, High := 101, Low := 99, Close := 100,
    MACD := some 1, MACD_Signal := some (1/2) }

/-- A bar whose MACD columns satisfy the sell rule (`hist = -1/2 < 0`,
`MACD = -1 < 0`). -/
def macdSellBar : Bar :=
  { Open := 100, High := 101, Low := 98, Close := 99,
    MACD := some (-1), MACD_Signal := some (-1/2) }

/-- The bar the long position is entered on (`Open = 100`, so the 5% stop
price is 95). -/
def entryBar : Bar := { Open := 100, High := 101, Low := 98, Close := 99 }

/-- The bar that breaches the stop: `Low = 90 ≤ 95`; its own `Open` is 92. -/
def breachBar : Bar := { Open := 92, High := 93, Low := 90, Close := 91 }

/-- The bar after the breach bar, with `Open = 97`. -/
def postBreachBar : Bar := { Open := 97, High := 98, Low := 96, Close := 97 }

/-- Buy signal at bar 0, entry at bar 1 (`Open = 100`), stop breach at
bar 2 (`Low = 90`), one further bar. -/
def stopRunBars : List Bar := [macdBuyBar, entryBar, breachBar, postBreachBar]

/-- Buy signal at bar 0, entry at bar 1; bar 1 carries a sell signal and
bar 2 breaches the stop, so at loop index 1 both the stop-loss and the
signal-reversal exit conditions are true. -/
def dualExitBars : List Bar := [macdBuyBar, macdSellBar, breachBar]

/-- A small portfolio: risk amount $10, position value $200 — below the
entry price of `lateEntryBars`, so the integer share count truncates
to 0. -/
def smallConfig : StrategyConfig :=
  { name := "macd_momentum", portfolio_size := 1000, max_risk_per_trade := 1,
    stop_loss_value := 5, take_profit_values := some [8, 12] }

/-- Buy signal on bar 0 of a 2-bar series: the position is entered at the
final bar and immediately force-closed at that same bar's Close. -/
def lateEntryBars : List Bar :=
  [macdBuyBar, { Open := 300, High := 311, Low := 299, Close := 310 }]

/-- A config with `stop_loss.value = 0`, which makes the position-size
division raise `ZeroDivisionError` on the first entry attempt. -/
def zeroStopConfig : StrategyConfig :=
  { name := "macd_momentum", portfolio_size := 10000, max_risk_per_trade := 1,
    stop_loss_value := 0, take_profit_values := some [8, 12] }

/-- A bar with `RSI = 25` and no MACD columns: an rsi-reversal buy, but a
hold under the MACD rule. -/
def rsiBuyBar : Bar :=
  { Open := 100, High := 101, Low := 99, Close := 100, RSI := some 25 }

/-- The `rsi_reversal` strategy entry, as selected at the CLI. -/
def rsiConfig : StrategyConfig :=
  { name := "rsi_reversal", portfolio_size := 10000, max_risk_per_trade := 1,
    stop_loss_value := 5, take_profit_values := some [8, 12] }

/-! ### General lemmas about the engine -/

lemma ok_bind {α β : Type} (a : α) (f : α → Except String β) :
    (Except.ok a >>= f) = f a := rfl

lemma error_bind {α β : Type} (e : String) (f : α → Except String β) :
    ((Except.error e : Except String α) >>= f) = Except.error e := rfl

lemma throw_bind {α β : Type} (e : String) (f : α → Except String β) :
    ((throw e : Except String α) >>= f) = Except.error e := rfl

lemma pure_except_bind {α β : Type} (a : α) (f : α → Except String β) :
    ((pure a : Except String α) >>= f) = f a := rfl

/-- The inline exit decision can only record one of the three in-loop
reasons, never `End of Period`. -/
lemma exitDecision_reasons (position : Position) (next_bar : Bar)
    (pnl_pct : ℚ) (signal : Signal) (r : ExitReason)
    (h : exitDecision position next_bar pnl_pct signal = some r) :
    r ≠ ExitReason.endOfPeriod := by
  intro hr
  subst hr
  simp only [exitDecision] at h
  by_cases hrev : reversalCond position signal
  · rw [if_pos hrev] at h
    simp at h
  · rw [if_neg hrev] at h
    rcases hf : firstTpLevel position.take_profit_levels pnl_pct with _ | lvl <;>
      rw [hf] at h
    · by_cases hstop : stopLossCond position next_bar
      · rw [if_pos hstop] at h
        simp at h
      · rw [if_neg hstop] at h
        cases h
    · simp at h

/-- The body of one loop iteration either leaves the state unchanged, opens
a position (entry branch), or closes the open position appending exactly
one trade and one equity entry (exit branch). -/
lemma btStepBody_cases (strategy_config : StrategyConfig) (ic : ℚ) (i : ℕ)
    (c n : Bar) (st st₁ : BTState)
    (h : btStepBody strategy_config ic i c n st = Except.ok st₁) :
    st₁ = st ∨
    (∃ p : Position, st.position = none ∧
      st₁ = { st with position := some p } ∧
      p.entry_date = i + 1 ∧ p.entry_price = n.Open ∧
      p.shares = pyint (ic * (strategy_config.max_risk_per_trade / 100) /
        (strategy_config.stop_loss_value / 100) / n.Open) ∧
      strategy_config.stop_loss_value / 100 ≠ 0 ∧ n.Open ≠ 0 ∧
      strategy_config.take_profit_values = some p.take_profit_levels) ∨
    (∃ (p : Position) (pnl pnl_pct : ℚ) (reason : ExitReason),
      st.position = some p ∧ reason ≠ ExitReason.endOfPeriod ∧
      st₁ = { st with
        trades := st.trades ++ [{
          entry_date := p.entry_date, exit_date := i + 1, type := p.type,
          entry := p.entry_price, exit := n.Open, shares := p.shares,
          pnl := pnl, pnl_pct := pnl_pct, exit_reason := reason }],
        position := none,
        equity_curve := st.equity_curve ++ [st.equity_curve.getLastD 0 + pnl] }) := by
  unfold btStepBody at h
  cases hpos : st.position with
  | none =>
      rw [hpos] at h
      simp only at h
      by_cases hsig : getSignal c "macd_momentum" = Signal.buy ∨
          getSignal c "macd_momentum" = Signal.sell
      · rw [if_pos hsig] at h
        by_cases hz : strategy_config.stop_loss_value / 100 = 0
        · rw [if_pos hz, throw_bind] at h
          exact Except.noConfusion h
        · rw [if_neg hz, pure_except_bind] at h
          by_cases ho : n.Open = 0
          · rw [if_pos ho, throw_bind] at h
            exact Except.noConfusion h
          · rw [if_neg ho, pure_except_bind] at h
            cases htp : strategy_config.take_profit_values with
            | none => rw [htp] at h; exact Except.noConfusion h
            | some tpv =>
                rw [htp] at h
                have h' : Except.ok { st with position := some {
                    type := getSignal c "macd_momentum"
                    entry_price := n.Open
                    entry_date := i + 1
                    shares := pyint (ic * (strategy_config.max_risk_per_trade / 100) /
                      (strategy_config.stop_loss_value / 100) / n.Open)
                    stop_loss :=
                      if getSignal c "macd_momentum" = Signal.buy then
                        n.Open * (1 - strategy_config.stop_loss_value / 100)
                      else n.Open * (1 + strategy_config.stop_loss_value / 100)
                    take_profit_levels := tpv } } = Except.ok st₁ := h
                injection h' with h'
                exact Or.inr (Or.inl ⟨_, rfl, h'.symm, rfl, rfl, rfl, hz, ho, rfl⟩)
      · rw [if_neg hsig] at h
        have h' : Except.ok st = Except.ok st₁ := h
        injection h' with h'
        exact Or.inl h'.symm
  | some p =>
      rw [hpos] at h
      dsimp only at h
      cases hd : exitDecision p n
          (((if p.type = Signal.sell then -(n.Open - p.entry_price)
             else n.Open - p.entry_price)) / p.entry_price * 100)
          (getSignal c "macd_momentum") with
      | none => rw [hd] at h; injection h with h; exact Or.inl h.symm
      | some reason =>
          rw [hd] at h
          injection h with h
          exact Or.inr (Or.inr ⟨p, _, _, reason, rfl,
            exitDecision_reasons _ _ _ _ _ hd, h.symm⟩)

lemma trailAppend_trades (i : ℕ) (st : BTState) :
    (trailAppend i st).trades = st.trades := rfl

lemma trailAppend_position (i : ℕ) (st : BTState) :
    (trailAppend i st).position = st.position := rfl

lemma trailAppend_equity (i : ℕ) (st : BTState) :
    (trailAppend i st).equity_curve = st.equity_curve ∨
    (trailAppend i st).equity_curve =
      st.equity_curve ++ [st.equity_curve.getLastD 0] := by
  unfold trailAppend
  split_ifs <;> simp

/-- One full iteration is the body followed by the trailing append. -/
lemma btStep_eq (strategy_config : StrategyConfig) (ic : ℚ) (i : ℕ)
    (c n : Bar) (st st₁ : BTState)
    (h : btStep strategy_config ic i c n st = Except.ok st₁) :
    ∃ stm, btStepBody strategy_config ic i c n st = Except.ok stm ∧
      st₁ = trailAppend i stm := by
  unfold btStep at h
  cases hb : btStepBody strategy_config ic i c n st with
  | ok stm =>
      rw [hb, ok_bind] at h
      injection h with h
      exact ⟨stm, rfl, h.symm⟩
  | error e => rw [hb, error_bind] at h; cases h

/-- Generic invariant-preservation along the bar loop, carrying the
correspondence between the remaining suffix and the loop index. -/
lemma btLoop_preserves (data : List Bar) (strategy_config : StrategyConfig)
    (ic : ℚ) (P : ℕ → BTState → Prop)
    (hstep : ∀ i c n rest st st₁, data.drop i = c :: n :: rest →
      btStep strategy_config ic i c n st = Except.ok st₁ → P i st → P (i + 1) st₁) :
    ∀ bars i st st₁, data.drop i = bars →
      btLoop strategy_config ic i bars st = Except.ok st₁ → P i st →
      ∃ j, P j st₁ := by
  intro bars
  induction bars with
  | nil =>
      intro i st st₁ _ h hP
      unfold btLoop at h
      injection h with h
      exact ⟨i, h ▸ hP⟩
  | cons c rest ih =>
      cases rest with
      | nil =>
          intro i st st₁ _ h hP
          unfold btLoop at h
          injection h with h
          exact ⟨i, h ▸ hP⟩
      | cons n rest₂ =>
          intro i st st₁ hdrop h hP
          unfold btLoop at h
          cases hs : btStep strategy_config ic i c n st with
          | error e => rw [hs, error_bind] at h; cases h
          | ok stm =>
              rw [hs, ok_bind] at h
              have hdrop₂ : data.drop (i + 1) = n :: rest₂ := by
                have h1 := congrArg (List.drop 1) hdrop
                rw [List.drop_drop] at h1
                simpa using h1
              exact ih (i + 1) stm st₁ hdrop₂ h
                (hstep i c n rest₂ st stm hdrop hs hP)

/-- A successful `find?` splits its list at the first satisfying element. -/
lemma find?_eq_some_split {p : ℚ → Bool} {l : List ℚ} {a : ℚ}
    (h : l.find? p = some a) :
    ∃ pre post, l = pre ++ a :: post ∧ p a = true ∧ ∀ x ∈ pre, p x = false := by
  induction l with
  | nil => cases h
  | cons b bs ih =>
      by_cases hb : p b
      · rw [List.find?_cons_of_pos bs hb] at h
        injection h with h
        subst h
        exact ⟨[], bs, rfl, hb, by simp⟩
      · rw [List.find?_cons_of_neg bs hb] at h
        obtain ⟨pre, post, hsplit, hpa, hpre⟩ := ih h
        refine ⟨b :: pre, post, by rw [hsplit]; rfl, hpa, ?_⟩
        intro x hx
        rcases List.mem_cons.mp hx with rfl | hx
        · exact Bool.eq_false_iff.mpr hb
        · exact hpre x hx

/-- A successful take-profit scan yields the first stored level the pnl
percentage has reached: every earlier-listed level is still above it. -/
lemma firstTpLevel_eq_some_split (levels : List ℚ) (pnl_pct lvl : ℚ)
    (h : firstTpLevel levels pnl_pct = some lvl) :
    ∃ pre post, levels = pre ++ lvl :: post ∧ lvl ≤ pnl_pct ∧
      ∀ x ∈ pre, pnl_pct < x := by
  obtain ⟨pre, post, hsplit, hpa, hpre⟩ := find?_eq_some_split h
  refine ⟨pre, post, hsplit, by simpa using hpa, ?_⟩
  intro x hx
  have := hpre x hx
  simpa using this

/-- After one append the head of a nonempty list is unchanged. -/
lemma head_cons_append (ic x : ℚ) (tl l : List ℚ) (h : l = ic :: tl) :
    ∃ tl₂, l ++ [x] = ic :: tl₂ := by
  subst h
  exact ⟨tl ++ [x], rfl⟩

/-- The forced end-of-period closure either does nothing or closes the one
open position at the final bar's Close. -/
lemma forceClose_shape (data : List Bar) (st : BTState) :
    forceClose data st = st ∨
    ∃ p fb q₁ q₂, st.position = some p ∧ data.getLast? = some fb ∧
      forceClose data st = {
        trades := st.trades ++
          [⟨p.entry_date, data.length - 1, p.type, p.entry_price, fb.Close,
            p.shares, q₁, q₂, ExitReason.endOfPeriod⟩]
        position := none
        equity_curve := st.equity_curve ++
          [st.equity_curve.getLastD 0 + q₁] } := by
  unfold forceClose
  cases hp : st.position with
  | none => exact Or.inl rfl
  | some p =>
      cases hl : data.getLast? with
      | none => exact Or.inl rfl
      | some fb => exact Or.inr ⟨p, fb, _, _, rfl, rfl, rfl⟩

/-- The successful core run decomposes into a successful loop followed by
statistics over the force-closed final state. -/
lemma runBacktestCore_ok (data : List Bar) (strategy_config : StrategyConfig)
    (s : Stats) (h : runBacktestCore data strategy_config = Except.ok s) :
    ∃ st₁, btLoop strategy_config strategy_config.portfolio_size 0 data
        { trades := [], position := none,
          equity_curve := [strategy_config.portfolio_size] } = Except.ok st₁ ∧
      calculateStatistics (forceClose data st₁).trades
        (forceClose data st₁).equity_curve = Except.ok s := by
  unfold runBacktestCore at h
  simp only at h
  cases hloop : btLoop strategy_config strategy_config.portfolio_size 0 data
      { trades := [], position := none,
        equity_curve := [strategy_config.portfolio_size] } with
  | error e => rw [hloop, error_bind] at h; exact Except.noConfusion h
  | ok st₁ => rw [hloop, ok_bind] at h; exact ⟨st₁, rfl, h⟩

/-- The bar handed to the loop as `next_bar` at index `i` sits at index
`i + 1` of the data. -/
lemma next_bar_getElem (data : List Bar) (i : ℕ) (c n : Bar)
    (rest : List Bar) (h : data.drop i = c :: n :: rest) :
    data[i + 1]? = some n := by
  have h1 : (data.drop i)[1]? = data[i + 1]? := by
    rw [List.getElem?_drop]
  rw [← h1, h]
  simp

/-- The bar handed to the loop as `next_bar` is a bar of the data. -/
lemma next_bar_mem (data : List Bar) (i : ℕ) (c n : Bar)
    (rest : List Bar) (h : data.drop i = c :: n :: rest) : n ∈ data := by
  have := List.take_append_drop i data
  rw [h] at this
  rw [← this]
  exact List.mem_append.mpr (Or.inr (List.mem_cons.mpr
    (Or.inr (List.mem_cons.mpr (Or.inl rfl)))))

/-- At loop index `i` at least `i + 2` bars exist. -/
lemma loop_index_lt (data : List Bar) (i : ℕ) (c n : Bar)
    (rest : List Bar) (h : data.drop i = c :: n :: rest) :
    i + 2 ≤ data.length := by
  have h1 : (data.drop i).length = data.length - i := List.length_drop i data
  rw [h] at h1
  simp only [List.length_cons] at h1
  omega

/-- Python `int()` of a nonnegative rational is nonnegative. -/
lemma pyint_nonneg (q : ℚ) (h : 0 ≤ q) : 0 ≤ pyint q := by
  unfold pyint
  rw [if_neg (not_lt.mpr h)]
  exact Int.floor_nonneg.mpr h

/-- A flat state is untouched by the forced closure. -/
lemma forceClose_flat (data : List Bar) (st : BTState)
    (h : st.position = none) : forceClose data st = st := by
  unfold forceClose
  rw [h]

/-! ### Lemmas about the statistics calculator -/

lemma foldl_max_le (x : ℚ) (xs : List ℚ) :
    x ≤ xs.foldl max x ∧ ∀ y ∈ xs, y ≤ xs.foldl max x := by
  induction xs generalizing x with
  | nil => simp
  | cons a as ih =>
      obtain ⟨h1, h2⟩ := ih (max x a)
      refine ⟨le_trans (le_max_left x a) h1, ?_⟩
      intro y hy
      rcases List.mem_cons.mp hy with rfl | hy
      · exact le_trans (le_max_right x y) h1
      · exact h2 y hy

lemma foldl_max_mem (x : ℚ) (xs : List ℚ) :
    xs.foldl max x = x ∨ xs.foldl max x ∈ xs := by
  induction xs generalizing x with
  | nil => simp
  | cons a as ih =>
      rw [List.foldl_cons]
      rcases ih (max x a) with h | h
      · rcases max_choice x a with he | he
        · exact Or.inl (h.trans he)
        · exact Or.inr (List.mem_cons.mpr (Or.inl (h.trans he)))
      · exact Or.inr (List.mem_cons.mpr (Or.inr h))

lemma foldl_min_le (x : ℚ) (xs : List ℚ) :
    xs.foldl min x ≤ x ∧ ∀ y ∈ xs, xs.foldl min x ≤ y := by
  induction xs generalizing x with
  | nil => simp
  | cons a as ih =>
      obtain ⟨h1, h2⟩ := ih (min x a)
      refine ⟨le_trans h1 (min_le_left x a), ?_⟩
      intro y hy
      rcases List.mem_cons.mp hy with rfl | hy
      · exact le_trans h1 (min_le_right x y)
      · exact h2 y hy

lemma foldl_min_mem (x : ℚ) (xs : List ℚ) :
    xs.foldl min x = x ∨ xs.foldl min x ∈ xs := by
  induction xs generalizing x with
  | nil => simp
  | cons a as ih =>
      rw [List.foldl_cons]
      rcases ih (min x a) with h | h
      · rcases min_choice x a with he | he
        · exact Or.inl (h.trans he)
        · exact Or.inr (List.mem_cons.mpr (Or.inl (h.trans he)))
      · exact Or.inr (List.mem_cons.mpr (Or.inr h))

lemma drawdowns_cons (e : ℚ) (es : List ℚ) :
    drawdowns (e :: es) =
      ((e - e) / e * 100) ::
        ((es.zip (cummaxFrom e es)).map fun p => (p.1 - p.2) / p.2 * 100) := by
  simp [drawdowns, cummax, cummaxFrom, max_self]

/-- The statistics dict carries its inputs through unchanged, and
`total_trades` is always the length of the trade list. -/
lemma calculateStatistics_passthrough (trades : List Trade) (ec : List ℚ)
    (s : Stats) (h : calculateStatistics trades ec = Except.ok s) :
    s.equity_curve = ec ∧ s.trades = trades ∧
    s.total_trades = trades.length := by
  unfold calculateStatistics at h
  by_cases he : trades.isEmpty
  · rw [if_pos he] at h
    by_cases hz : ec.headD 0 = 0
    · rw [if_pos hz, throw_bind] at h
      exact Except.noConfusion h
    · rw [if_neg hz, pure_except_bind] at h
      have h' : Except.ok _ = Except.ok s := h
      injection h' with h'
      rw [← h']
      refine ⟨rfl, ?_, ?_⟩ <;>
        simp [List.isEmpty_iff.mp he]
  · rw [if_neg he] at h
    cases hmax : pymax (trades.map Trade.pnl) with
    | error e => rw [hmax, error_bind] at h; exact Except.noConfusion h
    | ok mx =>
        rw [hmax, ok_bind] at h
        cases hmin : pymin (trades.map Trade.pnl) with
        | error e => rw [hmin, error_bind] at h; exact Except.noConfusion h
        | ok mn =>
            rw [hmin, ok_bind] at h
            cases hdd : pymin (drawdowns ec) with
            | error e => rw [hdd, error_bind] at h; exact Except.noConfusion h
            | ok dd =>
                rw [hdd, ok_bind] at h
                by_cases hz : ec.headD 0 = 0
                · rw [if_pos hz, throw_bind] at h
                  exact Except.noConfusion h
                · rw [if_neg hz, pure_except_bind] at h
                  have h' : Except.ok _ = Except.ok s := h
                  injection h' with h'
                  rw [← h']
                  exact ⟨rfl, rfl, rfl⟩

/-- Evaluation of `_calculate_statistics` on a nonempty trade list and a
nonempty equity curve with a nonzero first entry: no exception is raised
and the extreme-pnl and profit-factor fields have the stated values. -/
lemma calculateStatistics_cons (t : Trade) (ts : List Trade) (e : ℚ)
    (es : List ℚ) (he : e ≠ 0) :
    ∃ s, calculateStatistics (t :: ts) (e :: es) = Except.ok s ∧
      s.largest_win = (ts.map Trade.pnl).foldl max t.pnl ∧
      s.largest_loss = (ts.map Trade.pnl).foldl min t.pnl ∧
      s.profit_factor =
        (if ((t :: ts).filter fun x => decide (x.pnl < 0)).isEmpty then
          ProfitFactor.posInf
        else
          ProfitFactor.finite
            |(((t :: ts).filter fun x => decide (0 < x.pnl)).map Trade.pnl).sum /
             (((t :: ts).filter fun x => decide (x.pnl < 0)).map Trade.pnl).sum|) := by
  unfold calculateStatistics
  rw [if_neg (by simp)]
  rw [show (t :: ts).map Trade.pnl = t.pnl :: ts.map Trade.pnl from rfl]
  rw [show pymax (t.pnl :: ts.map Trade.pnl) =
        Except.ok ((ts.map Trade.pnl).foldl max t.pnl) from rfl, ok_bind]
  rw [show pymin (t.pnl :: ts.map Trade.pnl) =
        Except.ok ((ts.map Trade.pnl).foldl min t.pnl) from rfl, ok_bind]
  rw [drawdowns_cons]
  rw [show pymin (((e - e) / e * 100) ::
        ((es.zip (cummaxFrom e es)).map fun p => (p.1 - p.2) / p.2 * 100)) =
        Except.ok (((es.zip (cummaxFrom e es)).map
            fun p => (p.1 - p.2) / p.2 * 100).foldl min ((e - e) / e * 100))
      from rfl, ok_bind]
  rw [if_neg (by simpa using he), pure_except_bind]
  exact ⟨_, rfl, rfl, rfl, rfl⟩

/-- One loop iteration never changes the first equity entry: every write
to the curve is an append at the end. -/
lemma btStep_head (strategy_config : StrategyConfig) (ic ic₀ : ℚ) (i : ℕ)
    (c n : Bar) (st st₁ : BTState)
    (h : btStep strategy_config ic i c n st = Except.ok st₁)
    (hec : ∃ tl, st.equity_curve = ic₀ :: tl) :
    ∃ tl, st₁.equity_curve = ic₀ :: tl := by
  obtain ⟨tl, htl⟩ := hec
  obtain ⟨stm, hbody, rfl⟩ := btStep_eq _ _ _ _ _ _ _ h
  have hmid : ∃ tl₁, stm.equity_curve = ic₀ :: tl₁ := by
    rcases btStepBody_cases _ _ _ _ _ _ _ hbody with rfl |
        ⟨p, -, rfl, -, -, -, -, -, -⟩ | ⟨p, pnl, q, r, -, -, rfl⟩
    · exact ⟨tl, htl⟩
    · exact ⟨tl, htl⟩
    · exact head_cons_append _ _ _ _ htl
  obtain ⟨tl₂, htl₂⟩ := hmid
  rcases trailAppend_equity i stm with he | he
  · exact ⟨tl₂, by rw [he, htl₂]⟩
  · rw [he]
    exact head_cons_append _ _ _ _ htl₂

/-! ### Claim theorems -/

set_option maxRecDepth 2000 in
/-- Claim C4 (amended): the exit conditions are evaluated in the order
stop-loss, take-profit, signal-reversal, but each later true condition
overwrites the recorded reason, so the *last* true condition determines
`exit_reason`: signal reversal beats take-profit beats stop-loss.  Within
take-profit, the recorded level is the first level in the stored
(configured-ascending) order that the pnl percentage has reached — every
earlier-listed level is still strictly above it. -/
theorem exit_reason_last_condition_wins (position : Position)
    (next_bar : Bar) (pnl_pct : ℚ) (signal : Signal) :
    (reversalCond position signal →
      exitDecision position next_bar pnl_pct signal =
        some ExitReason.signalReversal) ∧
    (¬reversalCond position signal →
      ∀ lvl, firstTpLevel position.take_profit_levels pnl_pct = some lvl →
        exitDecision position next_bar pnl_pct signal =
          some (ExitReason.takeProfit lvl) ∧
        ∃ pre post, position.take_profit_levels = pre ++ lvl :: post ∧
          lvl ≤ pnl_pct ∧ ∀ x ∈ pre, pnl_pct < x) ∧
    (¬reversalCond position signal →
      firstTpLevel position.take_profit_levels pnl_pct = none →
      stopLossCond position next_bar →
      exitDecision position next_bar pnl_pct signal =
        some ExitReason.stopLoss) := by
  refine ⟨?_, ?_, ?_⟩
  · intro hrev
    simp only [exitDecision]
    rw [if_pos hrev]
  · intro hrev lvl hlvl
    refine ⟨?_, firstTpLevel_eq_some_split _ _ _ hlvl⟩
    simp only [exitDecision]
    rw [if_neg hrev, hlvl]
  · intro hrev hnone hstop
    simp only [exitDecision]
    rw [if_neg hrev, hnone, if_pos hstop]

/-- Witness for C4-amended: for the open long of `dualExitBars` both the
stop-loss condition (against `breachBar`) and the reversal condition hold,
and the decision is `Signal Reversal`. -/
theorem exit_reason_last_condition_wins_witness :
    exitDecision ⟨Signal.buy, 100, 1, 20, 95, [8, 12]⟩ breachBar (-8)
      Signal.sell = some ExitReason.signalReversal :=
  (exit_reason_last_condition_wins ⟨Signal.buy, 100, 1, 20, 95, [8, 12]⟩
    breachBar (-8) Signal.sell).1 (by decide)

/-- Claim C2 (amended): on every run — whatever the bars and the
configuration — the equity curve starts with the configured initial
capital; the per-bar length guarantee is what fails (see the
counterexample). -/
theorem equity_curve_head_is_initial_capital (data : List Bar)
    (strategy_config : StrategyConfig) :
    (resultEquityCurve (runBacktest data strategy_config)).head? =
      some strategy_config.portfolio_size := by
  unfold runBacktest
  cases hcore : runBacktestCore data strategy_config with
  | error e => simp [resultEquityCurve, emptyCaughtResult]
  | ok s =>
      obtain ⟨st₁, hloop, hstats⟩ := runBacktestCore_ok _ _ _ hcore
      obtain ⟨-, tl, htl⟩ :=
        btLoop_preserves data strategy_config strategy_config.portfolio_size
          (fun _ st => ∃ tl, st.equity_curve =
            strategy_config.portfolio_size :: tl)
          (fun i c n rest st st₂ _ hs hP =>
            btStep_head _ _ _ _ _ _ _ _ hs hP)
          data 0 _ st₁ rfl hloop ⟨[], rfl⟩
      have hfc : ∃ tl₂, (forceClose data st₁).equity_curve =
          strategy_config.portfolio_size :: tl₂ := by
        rcases forceClose_shape data st₁ with he | ⟨p, fb, q₁, q₂, -, -, he⟩
        · rw [he]; exact ⟨tl, htl⟩
        · rw [he]; exact head_cons_append _ _ _ _ htl
      obtain ⟨tl₂, htl₂⟩ := hfc
      have hpass := calculateStatistics_passthrough _ _ _ hstats
      simp [resultEquityCurve, hpass.1, htl₂]

/-- Loop-trade invariant: every trade closed inside the bar loop carries an
in-loop reason and its exit price is the Open of the bar at its exit
index. -/
lemma btStep_trades_exit (data : List Bar) (strategy_config : StrategyConfig)
    (ic : ℚ) (i : ℕ) (c n : Bar) (rest : List Bar) (st st₁ : BTState)
    (hdrop : data.drop i = c :: n :: rest)
    (h : btStep strategy_config ic i c n st = Except.ok st₁)
    (hP : ∀ u ∈ st.trades, u.exit_reason ≠ ExitReason.endOfPeriod ∧
      (data[u.exit_date]?).map Bar.Open = some u.exit) :
    ∀ u ∈ st₁.trades, u.exit_reason ≠ ExitReason.endOfPeriod ∧
      (data[u.exit_date]?).map Bar.Open = some u.exit := by
  obtain ⟨stm, hbody, rfl⟩ := btStep_eq _ _ _ _ _ _ _ h
  intro u hu
  rw [trailAppend_trades] at hu
  rcases btStepBody_cases _ _ _ _ _ _ _ hbody with rfl |
      ⟨p, -, rfl, -, -, -, -, -, -⟩ | ⟨p, pnl, q, reason, -, hreason, rfl⟩
  · exact hP u hu
  · exact hP u hu
  · rcases List.mem_append.mp hu with hm | hm
    · exact hP u hm
    · rw [List.mem_singleton] at hm
      subst hm
      refine ⟨hreason, ?_⟩
      rw [next_bar_getElem data i c n rest hdrop]
      rfl

/-- Claim C3 (amended): every trade's exit price is the Open of the bar at
its own `exit_date` — the bar against which the stop-loss/take-profit
condition was evaluated, not the bar after it — except the forced
end-of-backtest closure, which uses the final bar's Close (and the final
index). -/
theorem trade_exit_price_convention (data : List Bar)
    (strategy_config : StrategyConfig) (t : Trade)
    (ht : t ∈ resultTrades (runBacktest data strategy_config)) :
    (t.exit_reason ≠ ExitReason.endOfPeriod →
      (data[t.exit_date]?).map Bar.Open = some t.exit) ∧
    (t.exit_reason = ExitReason.endOfPeriod →
      (data.getLast?).map Bar.Close = some t.exit ∧
      t.exit_date = data.length - 1) := by
  unfold runBacktest at ht
  cases hcore : runBacktestCore data strategy_config with
  | error e =>
      rw [hcore] at ht
      simp [resultTrades, emptyCaughtResult] at ht
  | ok s =>
      rw [hcore] at ht
      simp only [resultTrades] at ht
      obtain ⟨st₁, hloop, hstats⟩ := runBacktestCore_ok _ _ _ hcore
      have hpass := calculateStatistics_passthrough _ _ _ hstats
      rw [hpass.2.1] at ht
      obtain ⟨-, hinv⟩ :=
        btLoop_preserves data strategy_config strategy_config.portfolio_size
          (fun _ st => ∀ u ∈ st.trades,
            u.exit_reason ≠ ExitReason.endOfPeriod ∧
            (data[u.exit_date]?).map Bar.Open = some u.exit)
          (fun i c n rest st st₂ hdrop hs hP =>
            btStep_trades_exit data strategy_config
              strategy_config.portfolio_size i c n rest st st₂ hdrop hs hP)
          data 0 _ st₁ rfl hloop (by intro u hu; cases hu)
      rcases forceClose_shape data st₁ with he | ⟨p, fb, q₁, q₂, -, hlast, he⟩
      · rw [he] at ht
        obtain ⟨hne, hopen⟩ := hinv t ht
        exact ⟨fun _ => hopen, fun hco => absurd hco hne⟩
      · rw [he] at ht
        simp only at ht
        rcases List.mem_append.mp ht with hm | hm
        · obtain ⟨hne, hopen⟩ := hinv t hm
          exact ⟨fun _ => hopen, fun hco => absurd hco hne⟩
        · rw [List.mem_singleton] at hm
          subst hm
          refine ⟨fun hne => absurd rfl hne, fun _ => ⟨?_, rfl⟩⟩
          rw [hlast]
          rfl

set_option maxRecDepth 2000 in
/-- Witness for C3-amended at the `stopRunBars` run: the one trade exits at
index 2 with price 92, the Open of bar 2 itself. -/
theorem trade_exit_price_convention_witness :
    ((⟨1, 2, Signal.buy, 100, 92, 20, -160, -8,
        ExitReason.stopLoss⟩ : Trade).exit_reason ≠
          ExitReason.endOfPeriod →
      (stopRunBars[(⟨1, 2, Signal.buy, 100, 92, 20, -160, -8,
        ExitReason.stopLoss⟩ : Trade).exit_date]?).map Bar.Open =
        some (⟨1, 2, Signal.buy, 100, 92, 20, -160, -8,
          ExitReason.stopLoss⟩ : Trade).exit) ∧
    ((⟨1, 2, Signal.buy, 100, 92, 20, -160, -8,
        ExitReason.stopLoss⟩ : Trade).exit_reason =
          ExitReason.endOfPeriod →
      (stopRunBars.getLast?).map Bar.Close =
        some (⟨1, 2, Signal.buy, 100, 92, 20, -160, -8,
          ExitReason.stopLoss⟩ : Trade).exit ∧
      (⟨1, 2, Signal.buy, 100, 92, 20, -160, -8,
        ExitReason.stopLoss⟩ : Trade).exit_date = stopRunBars.length - 1) :=
  trade_exit_price_convention stopRunBars demoConfig
    ⟨1, 2, Signal.buy, 100, 92, 20, -160, -8, ExitReason.stopLoss⟩
    (by decide)

/-- Loop invariant for trade times and share counts: with a nonnegative
capital, risk and stop-loss configuration and positive bar Opens, every
in-loop trade has a strictly later exit than entry and a nonnegative share
count, and any open position was entered no later than the current index,
within the data, with nonnegative shares. -/
lemma btStep_times_shares (data : List Bar)
    (strategy_config : StrategyConfig) (i : ℕ) (c n : Bar)
    (rest : List Bar) (st st₁ : BTState)
    (hcap : 0 ≤ strategy_config.portfolio_size)
    (hrisk : 0 ≤ strategy_config.max_risk_per_trade)
    (hstop : 0 ≤ strategy_config.stop_loss_value)
    (hopen : ∀ b ∈ data, 0 < b.Open)
    (hdrop : data.drop i = c :: n :: rest)
    (h : btStep strategy_config strategy_config.portfolio_size i c n st =
      Except.ok st₁)
    (hP : (∀ u ∈ st.trades, u.entry_date < u.exit_date ∧ 0 ≤ u.shares) ∧
      (∀ p, st.position = some p → p.entry_date ≤ i ∧
        p.entry_date ≤ data.length - 1 ∧ 0 ≤ p.shares)) :
    (∀ u ∈ st₁.trades, u.entry_date < u.exit_date ∧ 0 ≤ u.shares) ∧
    (∀ p, st₁.position = some p → p.entry_date ≤ i + 1 ∧
      p.entry_date ≤ data.length - 1 ∧ 0 ≤ p.shares) := by
  obtain ⟨hPtr, hPpos⟩ := hP
  obtain ⟨stm, hbody, rfl⟩ := btStep_eq _ _ _ _ _ _ _ h
  rcases btStepBody_cases _ _ _ _ _ _ _ hbody with rfl |
      ⟨p, hflat, rfl, hdate, hprice, hshares, hz, ho, htp⟩ |
      ⟨p, pnl, q, reason, hpos, hreason, rfl⟩
  · constructor
    · intro u hu
      rw [trailAppend_trades] at hu
      exact hPtr u hu
    · intro p hp
      rw [trailAppend_position] at hp
      obtain ⟨h1, h2, h3⟩ := hPpos p hp
      exact ⟨Nat.le_succ_of_le h1, h2, h3⟩
  · constructor
    · intro u hu
      rw [trailAppend_trades] at hu
      exact hPtr u hu
    · intro p₂ hp₂
      rw [trailAppend_position] at hp₂
      have hp₂ : some p = some p₂ := hp₂
      injection hp₂ with hp₂
      subst hp₂
      have hlen := loop_index_lt data i c n rest hdrop
      refine ⟨by rw [hdate], by rw [hdate]; omega, ?_⟩
      rw [hshares]
      refine pyint_nonneg _ ?_
      refine div_nonneg (div_nonneg (mul_nonneg hcap
        (div_nonneg hrisk (by norm_num)))
        (div_nonneg hstop (by norm_num))) ?_
      exact (hopen n (next_bar_mem data i c n rest hdrop)).le
  · constructor
    · intro u hu
      rw [trailAppend_trades] at hu
      have hu : u ∈ st.trades ++ [⟨p.entry_date, i + 1, p.type,
          p.entry_price, n.Open, p.shares, pnl, q, reason⟩] := hu
      rcases List.mem_append.mp hu with hm | hm
      · exact hPtr u hm
      · rw [List.mem_singleton] at hm
        subst hm
        obtain ⟨h1, -, h3⟩ := hPpos p hpos
        exact ⟨Nat.lt_succ_of_le h1, h3⟩
    · intro p₂ hp₂
      rw [trailAppend_position] at hp₂
      have hp₂ : (none : Option Position) = some p₂ := hp₂
      exact Option.noConfusion hp₂

/-- Claim C5 (amended): for every trade of a run under a nonnegative
capital/risk/stop-loss configuration over bars with positive Opens,
`exit_time ≥ entry_time`, with strictness whenever the exit is not the
forced end-of-period closure (a position entered at the final bar is
closed at that same bar), and `shares ≥ 0` — the floor of the position
value over the entry price, which is 0 when the position value is below
the entry price, not always `≥ 1`. -/
theorem trade_times_and_shares (data : List Bar)
    (strategy_config : StrategyConfig)
    (hcap : 0 ≤ strategy_config.portfolio_size)
    (hrisk : 0 ≤ strategy_config.max_risk_per_trade)
    (hstop : 0 ≤ strategy_config.stop_loss_value)
    (hopen : ∀ b ∈ data, 0 < b.Open)
    (t : Trade) (ht : t ∈ resultTrades (runBacktest data strategy_config)) :
    t.entry_date ≤ t.exit_date ∧
    (t.exit_reason ≠ ExitReason.endOfPeriod →
      t.entry_date < t.exit_date) ∧
    0 ≤ t.shares := by
  unfold runBacktest at ht
  cases hcore : runBacktestCore data strategy_config with
  | error e =>
      rw [hcore] at ht
      simp [resultTrades, emptyCaughtResult] at ht
  | ok s =>
      rw [hcore] at ht
      simp only [resultTrades] at ht
      obtain ⟨st₁, hloop, hstats⟩ := runBacktestCore_ok _ _ _ hcore
      have hpass := calculateStatistics_passthrough _ _ _ hstats
      rw [hpass.2.1] at ht
      obtain ⟨j, hPtr, hPpos⟩ :=
        btLoop_preserves data strategy_config strategy_config.portfolio_size
          (fun i st =>
            (∀ u ∈ st.trades, u.entry_date < u.exit_date ∧ 0 ≤ u.shares) ∧
            (∀ p, st.position = some p → p.entry_date ≤ i ∧
              p.entry_date ≤ data.length - 1 ∧ 0 ≤ p.shares))
          (fun i c n rest st st₂ hdrop hs hP =>
            btStep_times_shares data strategy_config i c n rest st st₂
              hcap hrisk hstop hopen hdrop hs hP)
          data 0 _ st₁ rfl hloop
          ⟨(by intro u hu; cases hu), (by intro p hp; cases hp)⟩
      rcases forceClose_shape data st₁ with he | ⟨p, fb, q₁, q₂, hpos, -, he⟩
      · rw [he] at ht
        obtain ⟨hlt, hsh⟩ := hPtr t ht
        exact ⟨hlt.le, fun _ => hlt, hsh⟩
      · rw [he] at ht
        have ht : t ∈ st₁.trades ++ [⟨p.entry_date, data.length - 1, p.type,
            p.entry_price, fb.Close, p.shares, q₁, q₂,
            ExitReason.endOfPeriod⟩] := ht
        rcases List.mem_append.mp ht with hm | hm
        · obtain ⟨hlt, hsh⟩ := hPtr t hm
          exact ⟨hlt.le, fun _ => hlt, hsh⟩
        · rw [List.mem_singleton] at hm
          subst hm
          obtain ⟨-, hlen, hsh⟩ := hPpos p hpos
          exact ⟨hlen, fun hne => absurd rfl hne, hsh⟩

set_option maxRecDepth 2000 in
/-- Witness for C5-amended: the forced trade of the `lateEntryBars` run has
`entry_date = exit_date = 1` (equality, as allowed for the end-of-period
closure) and `shares = 0 ≥ 0`. -/
theorem trade_times_and_shares_witness :
    (⟨1, 1, Signal.buy, 300, 310, 0, 0, 10/3,
        ExitReason.endOfPeriod⟩ : Trade).entry_date ≤
      (⟨1, 1, Signal.buy, 300, 310, 0, 0, 10/3,
        ExitReason.endOfPeriod⟩ : Trade).exit_date ∧
    ((⟨1, 1, Signal.buy, 300, 310, 0, 0, 10/3,
        ExitReason.endOfPeriod⟩ : Trade).exit_reason ≠
        ExitReason.endOfPeriod →
      (⟨1, 1, Signal.buy, 300, 310, 0, 0, 10/3,
          ExitReason.endOfPeriod⟩ : Trade).entry_date <
        (⟨1, 1, Signal.buy, 300, 310, 0, 0, 10/3,
          ExitReason.endOfPeriod⟩ : Trade).exit_date) ∧
    0 ≤ (⟨1, 1, Signal.buy, 300, 310, 0, 0, 10/3,
        ExitReason.endOfPeriod⟩ : Trade).shares :=
  trade_times_and_shares lateEntryBars smallConfig (by decide) (by decide)
    (by decide) (by decide) _ (by decide)

/-- With a zero stop-loss value or a missing take-profit `values` key, no
entry ever succeeds, so a surviving run stays flat and trade-free. -/
lemma btStep_bad_config (strategy_config : StrategyConfig) (ic : ℚ) (i : ℕ)
    (c n : Bar) (st st₁ : BTState)
    (hbad : strategy_config.stop_loss_value = 0 ∨
      strategy_config.take_profit_values = none)
    (h : btStep strategy_config ic i c n st = Except.ok st₁)
    (hP : st.position = none ∧ st.trades = []) :
    st₁.position = none ∧ st₁.trades = [] := by
  obtain ⟨hpos, htr⟩ := hP
  obtain ⟨stm, hbody, rfl⟩ := btStep_eq _ _ _ _ _ _ _ h
  rw [trailAppend_position, trailAppend_trades]
  rcases btStepBody_cases _ _ _ _ _ _ _ hbody with rfl |
      ⟨p, -, rfl, -, -, -, hz, -, htp⟩ |
      ⟨p, pnl, q, reason, hpos₂, -, rfl⟩
  · exact ⟨hpos, htr⟩
  · rcases hbad with hb | hb
    · exact absurd (by rw [hb]; norm_num) hz
    · rw [hb] at htp
      exact Option.noConfusion htp
  · rw [hpos] at hpos₂
    exact Option.noConfusion hpos₂

/-- Claim C6 (amended): with `stop_loss.value = 0` or a take-profit section
without a `values` key, the run either trips the first entry attempt —
whose exception the blanket handler converts into the fixed zero-trade
fallback dict — or, when no entry signal ever fires, completes as an
ordinary zero-trade run.  In neither case is a configuration error naming
the offending field surfaced, and in neither case do partial trades
escape.  (A *negative* stop-loss raises nothing at all and is not covered
by this statement.) -/
theorem config_error_swallowed (data : List Bar)
    (strategy_config : StrategyConfig)
    (hbad : strategy_config.stop_loss_value = 0 ∨
      strategy_config.take_profit_values = none) :
    runBacktest data strategy_config =
      Sum.inr (emptyCaughtResult strategy_config.portfolio_size) ∨
    ∃ s, runBacktest data strategy_config = Sum.inl s ∧
      s.trades = [] ∧ s.total_trades = 0 := by
  unfold runBacktest
  cases hcore : runBacktestCore data strategy_config with
  | error e => exact Or.inl rfl
  | ok s =>
      refine Or.inr ⟨s, rfl, ?_⟩
      obtain ⟨st₁, hloop, hstats⟩ := runBacktestCore_ok _ _ _ hcore
      obtain ⟨-, hpos, htr⟩ :=
        btLoop_preserves data strategy_config strategy_config.portfolio_size
          (fun _ st => st.position = none ∧ st.trades = [])
          (fun i c n rest st st₂ _ hs hP =>
            btStep_bad_config strategy_config _ i c n st st₂ hbad hs hP)
          data 0 _ st₁ rfl hloop ⟨rfl, rfl⟩
      rw [forceClose_flat data st₁ hpos] at hstats
      have hpass := calculateStatistics_passthrough _ _ _ hstats
      refine ⟨hpass.2.1.trans htr, ?_⟩
      rw [hpass.2.2, htr]
      rfl

set_option maxRecDepth 2000 in
/-- Witness for C6-amended at the concrete run with a zero stop-loss. -/
theorem config_error_swallowed_witness :
    runBacktest lateEntryBars zeroStopConfig =
      Sum.inr (emptyCaughtResult zeroStopConfig.portfolio_size) ∨
    ∃ s, runBacktest lateEntryBars zeroStopConfig = Sum.inl s ∧
      s.trades = [] ∧ s.total_trades = 0 :=
  config_error_swallowed lateEntryBars zeroStopConfig (Or.inl rfl)

/-- Claim C7: a run over 0 or 1 bars under a valid (positive-capital)
configuration raises nothing and returns the well-defined empty result:
zero trades, `equity_curve = [initial_capital]`, and every metric at its
zero/sentinel value. -/
theorem short_data_well_defined_empty_result (data : List Bar)
    (strategy_config : StrategyConfig) (hlen : data.length ≤ 1)
    (hcap : 0 < strategy_config.portfolio_size) :
    runBacktest data strategy_config = Sum.inl
      { total_trades := 0, winning_trades := 0, losing_trades := 0,
        win_rate := 0, avg_win := 0, avg_loss := 0, largest_win := 0,
        largest_loss := 0, profit_factor := ProfitFactor.finite 0,
        max_drawdown := 0, total_return := 0, sharpe_ratio := ⟨0, 0⟩,
        equity_curve := [strategy_config.portfolio_size], trades := [] } := by
  have hstats : calculateStatistics [] [strategy_config.portfolio_size] =
      Except.ok
        { total_trades := 0, winning_trades := 0, losing_trades := 0,
          win_rate := 0, avg_win := 0, avg_loss := 0, largest_win := 0,
          largest_loss := 0, profit_factor := ProfitFactor.finite 0,
          max_drawdown := 0, total_return := 0, sharpe_ratio := ⟨0, 0⟩,
          equity_curve := [strategy_config.portfolio_size],
          trades := [] } := by
    unfold calculateStatistics
    rw [if_pos (show ([] : List Trade).isEmpty = true from rfl)]
    rw [if_neg (show ¬List.headD [strategy_config.portfolio_size] 0 = 0 by
      simpa using hcap.ne'), pure_except_bind]
    rw [show (List.getLastD [strategy_config.portfolio_size] 0 -
        List.headD [strategy_config.portfolio_size] 0) /
        List.headD [strategy_config.portfolio_size] 0 * 100 = 0 by
      rw [show List.getLastD [strategy_config.portfolio_size] 0 =
          strategy_config.portfolio_size from rfl,
        show List.headD [strategy_config.portfolio_size] 0 =
          strategy_config.portfolio_size from rfl,
        sub_self, zero_div, zero_mul]]
    rfl
  have hloop : btLoop strategy_config strategy_config.portfolio_size 0 data
      { trades := [], position := none,
        equity_curve := [strategy_config.portfolio_size] } =
      Except.ok
        { trades := [], position := none,
          equity_curve := [strategy_config.portfolio_size] } := by
    cases data with
    | nil => rfl
    | cons b rest =>
        cases rest with
        | nil => rfl
        | cons b₂ r₂ =>
            simp only [List.length_cons] at hlen
            omega
  have hcore : runBacktestCore data strategy_config = Except.ok
      { total_trades := 0, winning_trades := 0, losing_trades := 0,
        win_rate := 0, avg_win := 0, avg_loss := 0, largest_win := 0,
        largest_loss := 0, profit_factor := ProfitFactor.finite 0,
        max_drawdown := 0, total_return := 0, sharpe_ratio := ⟨0, 0⟩,
        equity_curve := [strategy_config.portfolio_size],
        trades := [] } := by
    unfold runBacktestCore
    simp only
    rw [hloop, ok_bind, forceClose_flat data _ rfl]
    exact hstats
  unfold runBacktest
  rw [hcore]

/-- Witness for C7: the empty bar list under the demo configuration. -/
theorem short_data_well_defined_empty_result_witness :
    runBacktest [] demoConfig = Sum.inl
      { total_trades := 0, winning_trades := 0, losing_trades := 0,
        win_rate := 0, avg_win := 0, avg_loss := 0, largest_win := 0,
        largest_loss := 0, profit_factor := ProfitFactor.finite 0,
        max_drawdown := 0, total_return := 0, sharpe_ratio := ⟨0, 0⟩,
        equity_curve := [demoConfig.portfolio_size], trades := [] } :=
  short_data_well_defined_empty_result [] demoConfig (by decide) (by decide)

/-- Two always-winning trades with pnl `+50` and `+30` (Scenario C of the
spec). -/
def scenarioCTrades : List Trade :=
  [⟨0, 1, Signal.buy, 10, 15, 10, 50, 5, ExitReason.takeProfit 8⟩,
   ⟨0, 1, Signal.buy, 10, 13, 10, 30, 3, ExitReason.takeProfit 8⟩]

/-- A trade list in which every trade is a loss. -/
def allLossTrades : List Trade :=
  [⟨1, 2, Signal.buy, 100, 92, 20, -160, -8, ExitReason.stopLoss⟩]

/-- Claim C8: on a nonempty trade list the statistics calculator returns
`profit_factor = |sum(pnl of winners) / sum(pnl of losers)|` (winners have
`pnl > 0`, losers `pnl < 0`), and when there is no losing trade it returns
the positive-infinity sentinel — in both cases an `Except.ok` result, not
an exception.  (The nonzero first equity entry rules out the unrelated
`ZeroDivisionError` of `total_return`; the engine always passes a curve
starting with the initial capital.) -/
theorem profit_factor_spec (trades : List Trade) (equity_curve : List ℚ)
    (htr : trades ≠ []) (hec : equity_curve.headD 0 ≠ 0) :
    ∃ s, calculateStatistics trades equity_curve = Except.ok s ∧
      ((∀ t ∈ trades, ¬(t.pnl < 0)) → s.profit_factor = ProfitFactor.posInf) ∧
      ((∃ t ∈ trades, t.pnl < 0) →
        s.profit_factor = ProfitFactor.finite
          |((trades.filter fun x => decide (0 < x.pnl)).map Trade.pnl).sum /
           ((trades.filter fun x => decide (x.pnl < 0)).map Trade.pnl).sum|) := by
  obtain ⟨t, ts, rfl⟩ := List.exists_cons_of_ne_nil htr
  obtain ⟨e, es, rfl, he⟩ : ∃ e es, equity_curve = e :: es ∧ e ≠ 0 := by
    cases equity_curve with
    | nil => simp at hec
    | cons e es => exact ⟨e, es, rfl, by simpa using hec⟩
  obtain ⟨s, hs, _, _, hpf⟩ := calculateStatistics_cons t ts e es he
  refine ⟨s, hs, ?_, ?_⟩
  · intro hnl
    have hemp : ((t :: ts).filter fun x => decide (x.pnl < 0)).isEmpty := by
      rw [List.isEmpty_iff, List.filter_eq_nil_iff]
      intro a ha
      simpa using hnl a ha
    rw [hpf, if_pos hemp]
  · rintro ⟨t₀, ht₀, hneg⟩
    have hemp : ¬((t :: ts).filter fun x => decide (x.pnl < 0)).isEmpty := by
      rw [List.isEmpty_iff, List.filter_eq_nil_iff]
      intro hall
      exact absurd hneg (by simpa using hall t₀ ht₀)
    rw [hpf, if_neg hemp]

/-- Witness for C8: Scenario C of the spec — two winning trades, no
losers, profit factor is the `+∞` sentinel and no exception is raised. -/
theorem profit_factor_spec_witness :
    ∃ s, calculateStatistics scenarioCTrades [100] = Except.ok s ∧
      s.profit_factor = ProfitFactor.posInf := by
  obtain ⟨s, hs, hnl, _⟩ :=
    profit_factor_spec scenarioCTrades [100] (by decide) (by decide)
  exact ⟨s, hs, hnl (by decide)⟩

/-- Claim C10: on a nonempty trade list, `largest_win` is the maximum pnl
over *all* trades and `largest_loss` the minimum over *all* trades (not
over winners/losers only); hence with only losing trades `largest_win` is
negative, and with only winning trades `largest_loss` is positive. -/
theorem largest_win_loss_over_all_trades (trades : List Trade)
    (equity_curve : List ℚ) (htr : trades ≠ [])
    (hec : equity_curve.headD 0 ≠ 0) :
    ∃ s, calculateStatistics trades equity_curve = Except.ok s ∧
      s.largest_win ∈ trades.map Trade.pnl ∧
      (∀ t ∈ trades, t.pnl ≤ s.largest_win) ∧
      s.largest_loss ∈ trades.map Trade.pnl ∧
      (∀ t ∈ trades, s.largest_loss ≤ t.pnl) ∧
      ((∀ t ∈ trades, t.pnl < 0) → s.largest_win < 0) ∧
      ((∀ t ∈ trades, 0 < t.pnl) → 0 < s.largest_loss) := by
  obtain ⟨t, ts, rfl⟩ := List.exists_cons_of_ne_nil htr
  obtain ⟨e, es, rfl, he⟩ : ∃ e es, equity_curve = e :: es ∧ e ≠ 0 := by
    cases equity_curve with
    | nil => simp at hec
    | cons e es => exact ⟨e, es, rfl, by simpa using hec⟩
  obtain ⟨s, hs, hw, hl, _⟩ := calculateStatistics_cons t ts e es he
  have hwmem : s.largest_win ∈ (t :: ts).map Trade.pnl := by
    rw [hw, List.map_cons]
    rcases foldl_max_mem t.pnl (ts.map Trade.pnl) with h | h
    · rw [h]; exact List.mem_cons_self _ _
    · exact List.mem_cons_of_mem _ h
  have hlmem : s.largest_loss ∈ (t :: ts).map Trade.pnl := by
    rw [hl, List.map_cons]
    rcases foldl_min_mem t.pnl (ts.map Trade.pnl) with h | h
    · rw [h]; exact List.mem_cons_self _ _
    · exact List.mem_cons_of_mem _ h
  have hwub : ∀ u ∈ t :: ts, u.pnl ≤ s.largest_win := by
    intro u hu
    rw [hw]
    rcases List.mem_cons.mp hu with rfl | hu
    · exact (foldl_max_le u.pnl (ts.map Trade.pnl)).1
    · exact (foldl_max_le t.pnl (ts.map Trade.pnl)).2 u.pnl
        (List.mem_map_of_mem Trade.pnl hu)
  have hllb : ∀ u ∈ t :: ts, s.largest_loss ≤ u.pnl := by
    intro u hu
    rw [hl]
    rcases List.mem_cons.mp hu with rfl | hu
    · exact (foldl_min_le u.pnl (ts.map Trade.pnl)).1
    · exact (foldl_min_le t.pnl (ts.map Trade.pnl)).2 u.pnl
        (List.mem_map_of_mem Trade.pnl hu)
  refine ⟨s, hs, hwmem, hwub, hlmem, hllb, ?_, ?_⟩
  · intro hneg
    obtain ⟨u, hu, hue⟩ := List.mem_map.mp hwmem
    rw [← hue]
    exact hneg u hu
  · intro hposi
    obtain ⟨u, hu, hue⟩ := List.mem_map.mp hlmem
    rw [← hue]
    exact hposi u hu

/-- Witness for C10: with a single losing trade, `largest_win` equals that
trade's (negative) pnl and is itself negative. -/
theorem largest_win_loss_over_all_trades_witness :
    ∃ s, calculateStatistics allLossTrades [10000, 9840] = Except.ok s ∧
      s.largest_win < 0 := by
  obtain ⟨s, hs, _, _, _, _, hneg, _⟩ :=
    largest_win_loss_over_all_trades allLossTrades [10000, 9840]
      (by decide) (by decide)
  exact ⟨s, hs, hneg (by decide)⟩

/-- Claim C9: the MACD evaluator on a row carrying both `MACD` and
`MACD_Signal` returns buy iff `MACD - MACD_Signal > 0` and `MACD > 0`,
sell iff `MACD - MACD_Signal < 0` and `MACD < 0`, and hold otherwise; on a
row missing either column it returns hold (as a total function, it cannot
raise). -/
theorem macd_momentum_evaluator_spec (row : Bar) :
    (∀ m s, row.MACD = some m → row.MACD_Signal = some s →
      ((getMacdSignal row = Signal.buy ↔ 0 < m - s ∧ 0 < m) ∧
       (getMacdSignal row = Signal.sell ↔ m - s < 0 ∧ m < 0) ∧
       (getMacdSignal row = Signal.hold ↔
         ¬(0 < m - s ∧ 0 < m) ∧ ¬(m - s < 0 ∧ m < 0)))) ∧
    (row.MACD = none ∨ row.MACD_Signal = none →
      getMacdSignal row = Signal.hold) := by
  constructor
  · intro m s hm hs
    unfold getMacdSignal
    rw [hm, hs]
    simp only
    by_cases h₁ : m - s > 0 ∧ m > 0
    · rw [if_pos h₁]
      refine ⟨⟨fun _ => h₁, fun _ => rfl⟩, ⟨fun hc => Signal.noConfusion hc, ?_⟩,
        ⟨fun hc => Signal.noConfusion hc, ?_⟩⟩
      · rintro ⟨hlt, _⟩
        exact absurd h₁.1 (not_lt.mpr hlt.le)
      · rintro ⟨hn, _⟩
        exact absurd h₁ hn
    · rw [if_neg h₁]
      by_cases h₂ : m - s < 0 ∧ m < 0
      · rw [if_pos h₂]
        refine ⟨⟨fun hc => Signal.noConfusion hc, fun hr => absurd hr h₁⟩,
          ⟨fun _ => h₂, fun _ => rfl⟩,
          ⟨fun hc => Signal.noConfusion hc, ?_⟩⟩
        rintro ⟨_, hn⟩
        exact absurd h₂ hn
      · rw [if_neg h₂]
        exact ⟨⟨fun hc => Signal.noConfusion hc, fun hr => absurd hr h₁⟩,
          ⟨fun hc => Signal.noConfusion hc, fun hr => absurd hr h₂⟩,
          ⟨fun _ => ⟨h₁, h₂⟩, fun _ => rfl⟩⟩
  · intro h
    unfold getMacdSignal
    rcases h with h | h
    · rw [h]
    · rw [h]
      cases hm : row.MACD <;> rfl

/-- Witness for C9 at the concrete bar `macdBuyBar`
(`MACD = 1`, `MACD_Signal = 1/2`). -/
theorem macd_momentum_evaluator_spec_witness :
    getMacdSignal macdBuyBar = Signal.buy :=
  (((macd_momentum_evaluator_spec macdBuyBar).1 1 (1/2) rfl rfl).1).mpr
    (by constructor <;> norm_num)

/-- Claim C1 (code bug): the spec requires the engine to evaluate each bar
with the *configured* signal type, but `_run_backtest` calls
`self._get_signal(current_bar, 'macd_momentum')` with a hardcoded string.
On a bar with `RSI = 25` the rsi-reversal rule says buy, yet a backtest of
the `rsi_reversal` strategy produces no trade and is indistinguishable
from a run of the same data under the `macd_momentum` name. -/
theorem signal_type_is_hardcoded :
    getSignal rsiBuyBar "rsi_reversal" = Signal.buy ∧
    runBacktest [rsiBuyBar, rsiBuyBar, rsiBuyBar] rsiConfig =
      runBacktest [rsiBuyBar, rsiBuyBar, rsiBuyBar]
        { rsiConfig with name := "macd_momentum" } ∧
    resultTrades (runBacktest [rsiBuyBar, rsiBuyBar, rsiBuyBar] rsiConfig) = [] := by
  decide

set_option maxRecDepth 2000 in
/-- Claim C2 (counterexample): on a 2-bar signal-free series the final
equity curve has length 1, which is neither `bars.length = 2` nor
`bars.length + 1 = 3` — the append guard `len(equity_curve) <= i` skips
the first loop iteration, so the claimed one-entry-per-bar guarantee
fails. -/
theorem equity_curve_length_cex :
    ([holdBar, holdBar] : List Bar).length = 2 ∧
    (resultEquityCurve (runBacktest [holdBar, holdBar] demoConfig)).length = 1 ∧
    ¬((resultEquityCurve (runBacktest [holdBar, holdBar] demoConfig)).length =
        ([holdBar, holdBar] : List Bar).length ∨
      (resultEquityCurve (runBacktest [holdBar, holdBar] demoConfig)).length =
        ([holdBar, holdBar] : List Bar).length + 1) := by
  decide

set_option maxRecDepth 2000 in
/-- Claim C3 (counterexample): in `stopRunBars` the stop price of the long
entered at bar 1 is 95 and bar 2 breaches it (`Low = 90`), but the
position is closed at bar 2's *own* Open (92) with `exit_date = 2` — not
at bar 3's Open (97) as the claimed one-bar condition/execution lag
requires. -/
theorem exit_at_breach_bar_open_cex :
    stopLossCond ⟨Signal.buy, 100, 1, 20, 95, [8, 12]⟩ breachBar ∧
    stopRunBars[2]? = some breachBar ∧
    stopRunBars[3]? = some postBreachBar ∧
    breachBar.Open = 92 ∧ postBreachBar.Open = 97 ∧
    resultTrades (runBacktest stopRunBars demoConfig) =
      [⟨1, 2, Signal.buy, 100, 92, 20, -160, -8, ExitReason.stopLoss⟩] := by
  decide

set_option maxRecDepth 2000 in
/-- Claim C4 (counterexample): in `dualExitBars` both the stop-loss
condition (bar 2's `Low = 90 ≤ 95`) and the signal-reversal condition
(bar 1 carries a sell signal against the open long) are true at loop
index 1, yet the recorded exit reason is `Signal Reversal`, not
`Stop Loss`: each later check overwrites `exit_reason`, so the *last*
true condition wins, not the first. -/
theorem exit_priority_overwrite_cex :
    stopLossCond ⟨Signal.buy, 100, 1, 20, 95, [8, 12]⟩ breachBar ∧
    reversalCond ⟨Signal.buy, 100, 1, 20, 95, [8, 12]⟩
      (getSignal macdSellBar "macd_momentum") ∧
    resultTrades (runBacktest dualExitBars demoConfig) =
      [⟨1, 2, Signal.buy, 100, 92, 20, -160, -8, ExitReason.signalReversal⟩] := by
  decide

set_option maxRecDepth 2000 in
/-- Claim C5 (counterexample): a buy signal at the second-to-last bar opens
a position at the final bar, which the end-of-backtest closure closes at
that same bar — `entry_date = exit_date = 1` — and with a $200 position
value against a $300 entry price the integer share count truncates to 0:
both `exit_time > entry_time` and `shares >= 1` fail. -/
theorem trade_time_shares_cex :
    ∃ t ∈ resultTrades (runBacktest lateEntryBars smallConfig),
      ¬(t.entry_date < t.exit_date) ∧ ¬((1 : ℤ) ≤ t.shares) :=
  ⟨⟨1, 1, Signal.buy, 300, 310, 0, 0, 10/3, ExitReason.endOfPeriod⟩,
    by decide, by decide⟩

set_option maxRecDepth 2000 in
/-- Claim C6 (counterexample): with `stop_loss.value = 0` and a buy signal,
the entry-sizing division raises `ZeroDivisionError`, which the blanket
`except` of `_run_backtest` converts into the silent zero-trade fallback
dict — exactly the behaviour the claim says must not happen (no
configuration error naming the field is surfaced). -/
theorem zero_stop_loss_silent_result_cex :
    zeroStopConfig.stop_loss_value ≤ 0 ∧
    runBacktest lateEntryBars zeroStopConfig =
      Sum.inr (emptyCaughtResult 10000) ∧
    resultTrades (runBacktest lateEntryBars zeroStopConfig) = [] := by
  decide

end Backtest
